import Mathlib

/-!
Shallow embedding of the change-detection and notification core of
`src/app.py` (Amazon scrape / Telegram notify bot).

Embedded pieces:
* the per-product body of `process_once` (lines 402-453): classification of a
  scraped product record as new / drop / unchanged against the persisted
  history dict, the resulting history mutation, daily-ledger append and
  Telegram send attempts;
* the per-URL `try/except` structure of `process_once` (lines 399-460);
* the crash behaviour of `guardar_json` (lines 381-386), which opens the
  target file with mode "w" and dumps into it directly;
* `send_daily_summary_if_time` (lines 463-486) together with the daily-ledger
  drain `get_and_clear_today_changes` (lines 359-366).

Modelling conventions:
* Python floats (prices) are modelled as rationals `ℚ`; only ordering and
  equality of prices matter to the embedded code.
* A Python dict entry that is absent and one that is present with value
  `None` are both modelled as `Option.none`: the source only ever reads the
  history entries through `dict.get`, which identifies the two.
* `datetime.now().isoformat()` is modelled by a timestamp parameter `now`
  passed to the processing functions (one scrape cycle, one clock reading).
* The Telegram transport is modelled by an outcome oracle `o : ℕ → Bool`
  consumed one index per send attempt: `o k` is the success of the k-th HTTP
  send of the run.  The attempts performed are recorded in the state.
* Messages built by the source are HTML strings; no claim depends on their
  text, so a notification is modelled structurally by the fields the source
  interpolates into the message (kind, title, prices, link, image).
-/

/-- A scraped product record as produced by `analyze_page`:
`{"asin":…, "titulo":…, "precio": float|None, "link":…, "image": str|None}`. -/
structure ProductRecord where
  asin : String
  titulo : String
  precio : Option ℚ
  link : String
  image : Option String
deriving Repr, DecidableEq

/-- A persisted history entry.  `process_once` writes
`{"titulo":…, "precio":…, "link":…, "last_seen":…}`; legacy entries may
instead carry the value under the `"price"` key (read at line 432), so both
keys are modelled, each as `Option ℚ` (absent-or-null collapses to `none`). -/
structure HistoryEntry where
  titulo : String
  precio : Option ℚ
  price : Option ℚ
  link : String
  last_seen : String
deriving Repr, DecidableEq

/-- The history dict `data.json`: product id → entry (`none` = key absent). -/
def HistMap : Type := String → Option HistoryEntry

/-- `history[asin] = entry` — insert or overwrite one key. -/
def hupd (h : HistMap) (k : String) (e : HistoryEntry) : HistMap :=
  fun k' => if k' = k then some e else h k'

/-- Line 432: `prev.get("precio") if prev.get("precio") is not None else
prev.get("price")` — the effective previous price of a history entry. -/
def effPrev (e : HistoryEntry) : Option ℚ :=
  match e.precio with
  | some q => some q
  | none => e.price

/-- A daily-ledger change object as appended by `append_daily_change`:
`{"type": "new"|"drop", "asin", "titulo", ["old",] "new", "link", "time"}`.
The `"new"`-typed object carries no `"old"` key, modelled as `old = none`. -/
structure ChangeEvent where
  type : String
  asin : String
  titulo : String
  old : Option ℚ
  new : ℚ
  link : String
  time : String
deriving Repr, DecidableEq

/-- The data a notification message is built from (the fields interpolated
into the HTML message at lines 416-419 and 434-438, plus the image used for
the `sendPhoto` attempt). -/
structure NotificationRequest where
  kind : String
  titulo : String
  old : Option ℚ
  new : ℚ
  link : String
  image : Option String
deriving Repr, DecidableEq

/-- One Telegram HTTP send attempt and its outcome. -/
inductive SendAttempt where
  | photo (img : String) (req : NotificationRequest) (ok : Bool)
  | text (req : NotificationRequest) (ok : Bool)
deriving Repr, DecidableEq

/-- The state threaded through one processing cycle: the in-memory history
dict (mutated in place by the source), the change objects appended to the
daily ledger, the notification requests built, the Telegram send attempts
performed, and the send counter consuming the outcome oracle. -/
structure ProcState where
  hist : HistMap
  events : List ChangeEvent
  notifs : List NotificationRequest
  sends : List SendAttempt
  ctr : ℕ

/-- Lines 420-426 / 439-445: photo-first sending.  With an image, attempt
`sendPhoto`; on failure fall back to `sendText`; without an image, `sendText`
directly.  Returns the attempts performed and the advanced send counter. -/
def doSends (o : ℕ → Bool) (ctr : ℕ) (req : NotificationRequest) :
    List SendAttempt × ℕ :=
  match req.image with
  | some img =>
      if o ctr then ([SendAttempt.photo img req true], ctr + 1)
      else ([SendAttempt.photo img req false, SendAttempt.text req (o (ctr + 1))],
            ctr + 2)
  | none => ([SendAttempt.text req (o ctr)], ctr + 1)

/-- The body of the inner `for prod in productos` loop of `process_once`
(lines 402-453): skip null price; absent id → new (notify, insert entry,
append ledger object); present id with known lower previous price → drop
(notify, update `precio` and `last_seen`, append ledger object); otherwise →
update `last_seen` only. -/
def process_record (o : ℕ → Bool) (now : String) (st : ProcState)
    (r : ProductRecord) : ProcState :=
  match r.precio with
  | none => st
  | some p =>
    match st.hist r.asin with
    | none =>
        let req : NotificationRequest :=
          ⟨"new", r.titulo, none, p, r.link, r.image⟩
        let s := doSends o st.ctr req
        { hist := hupd st.hist r.asin ⟨r.titulo, some p, none, r.link, now⟩
          events := st.events ++ [⟨"new", r.asin, r.titulo, none, p, r.link, now⟩]
          notifs := st.notifs ++ [req]
          sends := st.sends ++ s.1
          ctr := s.2 }
    | some prev =>
        match effPrev prev with
        | some q =>
            if p < q then
              let req : NotificationRequest :=
                ⟨"drop", r.titulo, some q, p, r.link, r.image⟩
              let s := doSends o st.ctr req
              { hist := hupd st.hist r.asin
                  { prev with precio := some p, last_seen := now }
                events := st.events ++
                  [⟨"drop", r.asin, r.titulo, some q, p, r.link, now⟩]
                notifs := st.notifs ++ [req]
                sends := st.sends ++ s.1
                ctr := s.2 }
            else
              { st with hist := hupd st.hist r.asin { prev with last_seen := now } }
        | none =>
            { st with hist := hupd st.hist r.asin { prev with last_seen := now } }

/-- The product loop over one parsed page, without fault injection. -/
def process_records (o : ℕ → Bool) (now : String) (st : ProcState)
    (rs : List ProductRecord) : ProcState :=
  rs.foldl (process_record o now) st

/-- A unit of work inside one page's product loop: either a record that
processes normally, or one whose processing raises an unexpected exception
(§7(4) fault injection). -/
inductive Item where
  | ok (r : ProductRecord)
  | fault
deriving Repr, DecidableEq

/-- The `for prod in productos` loop under the per-URL `try` (lines 399-460):
an exception raised while processing a record is caught by the `except` at
line 457, so the remaining records of that URL's page are not processed and
the state mutated so far is kept. -/
def process_url (o : ℕ → Bool) (now : String) (st : ProcState)
    (items : List Item) : ProcState :=
  match items with
  | [] => st
  | Item.ok r :: rest => process_url o now (process_record o now st r) rest
  | Item.fault :: _ => st

/-- The `for url in urls` loop of `process_once`: each page runs under its
own `try/except`, so processing continues with the next URL after a fault. -/
def process_once (o : ℕ → Bool) (now : String) (st : ProcState)
    (pages : List (List Item)) : ProcState :=
  pages.foldl (process_url o now) st

/-! ### Concrete instances used by witnesses and counterexamples -/

/-- A history entry for product id `"A1"` at stored price 10. -/
def sampleEntry : HistoryEntry := ⟨"Widget", some 10, none, "l1", "T0"⟩

/-- A legacy history entry carrying no price under either key. -/
def legacyEntry : HistoryEntry := ⟨"Oldie", none, none, "l3", "T0"⟩

/-- A history holding `"A1"` (priced) and `"C1"` (price-less legacy entry). -/
def sampleHist : HistMap := fun k =>
  if k = "A1" then some sampleEntry
  else if k = "C1" then some legacyEntry
  else none

/-- A starting processing state over `sampleHist` with empty accumulators. -/
def sampleSt : ProcState := ⟨sampleHist, [], [], [], 0⟩

/-- A scraped record for the known id `"A1"` at the lower price 5. -/
def sampleDrop : ProductRecord := ⟨"A1", "Widget", some 5, "l1", none⟩

/-- A scraped record for the unknown id `"B1"` at price 7. -/
def sampleNew : ProductRecord := ⟨"B1", "Gadget", some 7, "l2", none⟩

/-- A scraped record for the known id `"A1"` with a null price. -/
def sampleNull : ProductRecord := ⟨"A1", "Widget", none, "l1", none⟩

/-- A scraped record for the legacy id `"C1"` at the very low price 1. -/
def sampleCheap : ProductRecord := ⟨"C1", "Oldie", some 1, "l3", none⟩

/-! ### Claim theorems -/

/-- **C1.**  For a record whose id is in history with stored price `q` and a
non-null scraped price `p`: if `p < q` the record is classified `drop` — a
change event with `old = q` and `new = p` is appended and the stored price
becomes `p`; if `q ≤ p` no event and no notification is produced, the stored
price is unchanged, and only `last_seen` is updated. -/
theorem c1_drop_vs_unchanged (o : ℕ → Bool) (now : String) (st : ProcState)
    (r : ProductRecord) (prev : HistoryEntry) (p q : ℚ)
    (h1 : st.hist r.asin = some prev) (h2 : effPrev prev = some q)
    (h3 : r.precio = some p) :
    (p < q →
      (process_record o now st r).events
        = st.events ++ [⟨"drop", r.asin, r.titulo, some q, p, r.link, now⟩] ∧
      (process_record o now st r).hist r.asin
        = some { prev with precio := some p, last_seen := now }) ∧
    (q ≤ p →
      (process_record o now st r).events = st.events ∧
      (process_record o now st r).notifs = st.notifs ∧
      (process_record o now st r).sends = st.sends ∧
      (process_record o now st r).hist r.asin
        = some { prev with last_seen := now }) := by
  constructor
  · intro hlt
    simp only [process_record, h3, h1, h2, if_pos hlt]
    simp [hupd]
  · intro hle
    simp only [process_record, h3, h1, h2, if_neg (not_lt.mpr hle)]
    simp [hupd]

/-- Witness for C1: at stored price 10 and scraped price 5 the entry is
rewritten to price 5 with the fresh timestamp. -/
theorem c1_drop_vs_unchanged_witness :
    (process_record (fun _ => true) "T1" sampleSt sampleDrop).hist "A1"
      = some { sampleEntry with precio := some (5 : ℚ), last_seen := "T1" } :=
  ((c1_drop_vs_unchanged (fun _ => true) "T1" sampleSt sampleDrop sampleEntry
      5 10 (by decide) (by decide) (by decide)).1 (by norm_num)).2

/-- **C2.**  A record with a non-null price whose id is absent from history is
classified `new`: an entry with the record's price is inserted, exactly one
notification request is emitted, and a change event with type `"new"`,
`new = price` and no old price is appended. -/
theorem c2_new_product (o : ℕ → Bool) (now : String) (st : ProcState)
    (r : ProductRecord) (p : ℚ)
    (h1 : st.hist r.asin = none) (h2 : r.precio = some p) :
    (process_record o now st r).hist r.asin
      = some ⟨r.titulo, some p, none, r.link, now⟩ ∧
    (process_record o now st r).events
      = st.events ++ [⟨"new", r.asin, r.titulo, none, p, r.link, now⟩] ∧
    (process_record o now st r).notifs
      = st.notifs ++ [⟨"new", r.titulo, none, p, r.link, r.image⟩] := by
  simp only [process_record, h2, h1]
  simp [hupd]

/-- Witness for C2: the unknown id `"B1"` at price 7 is inserted at price 7
with one `new` event. -/
theorem c2_new_product_witness :
    (process_record (fun _ => true) "T1" sampleSt sampleNew).hist "B1"
      = some ⟨"Gadget", some (7 : ℚ), none, "l2", "T1"⟩ ∧
    (process_record (fun _ => true) "T1" sampleSt sampleNew).events
      = sampleSt.events ++ [⟨"new", "B1", "Gadget", none, 7, "l2", "T1"⟩] ∧
    (process_record (fun _ => true) "T1" sampleSt sampleNew).notifs
      = sampleSt.notifs ++ [⟨"new", "Gadget", none, 7, "l2", none⟩] :=
  c2_new_product (fun _ => true) "T1" sampleSt sampleNew 7 (by decide) (by decide)

/-- **C3.**  A record with a null price is skipped entirely: the whole
processing state — history, events, notifications, send attempts — is
returned unchanged. -/
theorem c3_null_price_skipped (o : ℕ → Bool) (now : String) (st : ProcState)
    (r : ProductRecord) (h : r.precio = none) :
    process_record o now st r = st := by
  simp only [process_record, h]

/-- Witness for C3: a null-priced record over the sample state is a no-op. -/
theorem c3_null_price_skipped_witness :
    process_record (fun _ => true) "T1" sampleSt sampleNull = sampleSt :=
  c3_null_price_skipped (fun _ => true) "T1" sampleSt sampleNull rfl

/-- **C10.**  A record (at any non-null price) whose history entry carries no
price under either the `"precio"` or the legacy `"price"` key is classified
`unchanged`: the state is unchanged except that the entry's `last_seen` is
refreshed — no event, no notification, and the missing price is never
filled in. -/
theorem c10_priceless_entry_unchanged (o : ℕ → Bool) (now : String)
    (st : ProcState) (r : ProductRecord) (prev : HistoryEntry) (p : ℚ)
    (h1 : st.hist r.asin = some prev) (h2a : prev.precio = none)
    (h2b : prev.price = none) (h3 : r.precio = some p) :
    process_record o now st r
      = { st with hist := hupd st.hist r.asin { prev with last_seen := now } } := by
  have he : effPrev prev = none := by
    unfold effPrev
    rw [h2a]
    exact h2b
  simp only [process_record, h3, h1, he]

/-- Witness for C10: the price-less legacy entry `"C1"` observed at the very
low price 1 only gets its `last_seen` refreshed. -/
theorem c10_priceless_entry_unchanged_witness :
    process_record (fun _ => true) "T1" sampleSt sampleCheap
      = { sampleSt with
          hist := hupd sampleSt.hist "C1" { legacyEntry with last_seen := "T1" } } :=
  c10_priceless_entry_unchanged (fun _ => true) "T1" sampleSt sampleCheap
    legacyEntry 1 (by decide) rfl rfl rfl

/-- Counterexample to **C6** as stated.  The claim requires `last_seen` to be
refreshed on *every* observation of a known id, including an unclassifiable
(null-price) one.  In the code a null price hits `continue` (line 409) before
the history dict is touched: observing the known id `"A1"` with a null price
at time `"T1"` leaves its entry's `last_seen` at the old `"T0"`. -/
theorem c6_counterexample :
    (process_record (fun _ => true) "T1" sampleSt sampleNull).hist "A1"
      = some sampleEntry ∧ sampleEntry.last_seen ≠ "T1" := by
  decide

/-- **C6 (amended).**  For a record whose id already has a history entry,
`last_seen` is refreshed on every observation with a *non-null* price
(whether classified drop or unchanged); null-price observations are skipped
entirely and leave the entry untouched. -/
theorem c6_last_seen_refreshed (o : ℕ → Bool) (now : String) (st : ProcState)
    (r : ProductRecord) (prev : HistoryEntry) (p : ℚ)
    (h1 : st.hist r.asin = some prev) (h2 : r.precio = some p) :
    ∃ e, (process_record o now st r).hist r.asin = some e ∧ e.last_seen = now := by
  simp only [process_record, h2, h1]
  cases hq : effPrev prev with
  | none => exact ⟨{ prev with last_seen := now }, by simp [hupd], rfl⟩
  | some q =>
    by_cases hlt : p < q
    · exact ⟨{ prev with precio := some p, last_seen := now },
        by simp [hupd, hlt], rfl⟩
    · exact ⟨{ prev with last_seen := now }, by simp [hupd, hlt], rfl⟩

/-- Witness for the amended C6: the known id `"A1"` observed at price 5 gets
`last_seen` refreshed to `"T1"`. -/
theorem c6_last_seen_refreshed_witness :
    ∃ e, (process_record (fun _ => true) "T1" sampleSt sampleDrop).hist "A1"
      = some e ∧ e.last_seen = "T1" :=
  c6_last_seen_refreshed (fun _ => true) "T1" sampleSt sampleDrop sampleEntry 5
    (by decide) (by decide)

/-- Counterexample to **C4** as stated.  The claim puts the exception
isolation boundary at one product record, so a record following a faulting
one in the same page would still be processed.  In the code the
`try/except` (lines 400/457) wraps the whole per-URL product loop: in the
one-page batch `[fault, ok "B1"]` the new product `"B1"` is never processed —
no history entry, no event. -/
theorem c4_counterexample :
    (process_once (fun _ => true) "T1" ⟨fun _ => none, [], [], [], 0⟩
        [[Item.fault, Item.ok ⟨"B1", "Gadget", some 7, "l2", none⟩]]).hist "B1"
      = none ∧
    (process_once (fun _ => true) "T1" ⟨fun _ => none, [], [], [], 0⟩
        [[Item.fault, Item.ok ⟨"B1", "Gadget", some 7, "l2", none⟩]]).events
      = [] := by
  decide

/-- **C4 (amended).**  An unexpected exception while processing a record is
caught and logged at the granularity of one URL's page: the records of that
page processed before the fault keep their effects, the remaining records of
the same page are skipped, and all subsequent pages of the batch are still
processed (isolation boundary = one page, not one record, not the batch). -/
theorem c4_fault_page_isolation (o : ℕ → Bool) (now : String) (st : ProcState)
    (a b : List ProductRecord) (rest : List (List Item)) :
    process_once o now st
        ((a.map Item.ok ++ Item.fault :: b.map Item.ok) :: rest)
      = process_once o now (process_records o now st a) rest := by
  have hpage : ∀ (a : List ProductRecord) (st : ProcState),
      process_url o now st (a.map Item.ok ++ Item.fault :: b.map Item.ok)
        = process_records o now st a := by
    intro a
    induction a with
    | nil => intro st; rfl
    | cons x xs ih =>
      intro st
      simpa [process_url, process_records] using ih (process_record o now st x)
  show (((a.map Item.ok ++ Item.fault :: b.map Item.ok) :: rest).foldl
      (process_url o now) st) = _
  rw [List.foldl_cons, hpage a st]
  rfl

/-! ### Crash model of `guardar_json` -/

/-- Crash model of `guardar_json` (lines 381-386).  The function runs
`open(path, "w")` — which truncates the target file in place — and then
`json.dump`, which writes the serialized data sequentially into the same
file descriptor.  The on-disk contents observable if the process dies at an
arbitrary point are therefore: the old content (crash before the `open`), or
any prefix of the new data (crash after the truncation, part-way through or
at the end of the write).  File contents are modelled as character lists. -/
def guardar_json_crash_states (old data : List Char) : List (List Char) :=
  old :: (List.range (data.length + 1)).map (fun i => data.take i)

/-- Counterexample to **C5** as stated.  The claim requires the save to be an
atomic overwrite (every mid-write crash leaves either the old or the new
content).  `guardar_json` writes in place with no temp-file-and-rename: with
old content `"old"` and new data `"new"`, some crash point leaves a file that
is neither. -/
theorem c5_counterexample :
    ∃ c ∈ guardar_json_crash_states "old".toList "new".toList,
      c ≠ "old".toList ∧ c ≠ "new".toList := by
  decide

/-- **C5 (amended).**  `guardar_json` overwrites the target file in place
(`open(path, "w")` then `json.dump`), so the save is not atomic: whenever the
old content and the new data are both non-empty, some mid-write crash point
leaves on disk a state that is neither the previously saved content nor the
new one (e.g. the empty file right after truncation). -/
theorem c5_inplace_write_not_atomic (old data : List Char)
    (h1 : old ≠ []) (h2 : data ≠ []) :
    ∃ c ∈ guardar_json_crash_states old data, c ≠ old ∧ c ≠ data := by
  refine ⟨[], ?_, Ne.symm h1, Ne.symm h2⟩
  unfold guardar_json_crash_states
  exact List.mem_cons.mpr (Or.inr (List.mem_map.mpr
    ⟨0, List.mem_range.mpr (Nat.succ_pos _), rfl⟩))

/-- Witness for the amended C5 at concrete non-empty contents. -/
theorem c5_inplace_write_not_atomic_witness :
    ∃ c ∈ guardar_json_crash_states "prev".toList "fresh".toList,
      c ≠ "prev".toList ∧ c ≠ "fresh".toList :=
  c5_inplace_write_not_atomic "prev".toList "fresh".toList
    (by decide) (by decide)

/-! ### Delivery-outcome independence (C7) -/

/-- Two processing states that agree on everything the persisted state and
the ledger can see: the history dict, the appended change events and the
built notification requests (the send attempts and the send counter may
differ). -/
def Agrees (s t : ProcState) : Prop :=
  s.hist = t.hist ∧ s.events = t.events ∧ s.notifs = t.notifs

/-- One record step preserves agreement even under different delivery
oracles: the send outcomes flow only into the `sends` log and the counter,
never into history, events or notifications. -/
theorem agrees_process_record (o1 o2 : ℕ → Bool) (now : String)
    (r : ProductRecord) {s t : ProcState} (h : Agrees s t) :
    Agrees (process_record o1 now s r) (process_record o2 now t r) := by
  obtain ⟨h1, h2, h3⟩ := h
  have h1' : s.hist r.asin = t.hist r.asin := by rw [h1]
  cases hr : r.precio with
  | none => simp only [process_record, hr]; exact ⟨h1, h2, h3⟩
  | some p =>
    cases hh : t.hist r.asin with
    | none =>
      have hs : s.hist r.asin = none := by rw [h1', hh]
      simp only [process_record, hr, hh, hs]
      exact ⟨by rw [h1], by rw [h2], by rw [h3]⟩
    | some prev =>
      have hs : s.hist r.asin = some prev := by rw [h1', hh]
      cases hq : effPrev prev with
      | none =>
        simp only [process_record, hr, hh, hs, hq]
        exact ⟨by rw [h1], h2, h3⟩
      | some q =>
        by_cases hlt : p < q
        · simp only [process_record, hr, hh, hs, hq, if_pos hlt]
          exact ⟨by rw [h1], by rw [h2], by rw [h3]⟩
        · simp only [process_record, hr, hh, hs, hq, if_neg hlt]
          exact ⟨by rw [h1], h2, h3⟩

/-- Agreement is preserved along a whole record list. -/
theorem agrees_process_records (o1 o2 : ℕ → Bool) (now : String)
    (rs : List ProductRecord) {s t : ProcState} (h : Agrees s t) :
    Agrees (process_records o1 now s rs) (process_records o2 now t rs) := by
  induction rs generalizing s t with
  | nil => exact h
  | cons x xs ih => exact ih (agrees_process_record o1 o2 now x h)

/-- **C7.**  Two runs of the record loop on the same records and the same
starting state that differ only in the success/failure outcomes of the
Telegram sends produce the same history, the same sequence of appended
change events, and the same notification requests: delivery outcome never
blocks or alters state updates. -/
theorem c7_delivery_independent (o1 o2 : ℕ → Bool) (now : String)
    (st : ProcState) (rs : List ProductRecord) :
    (process_records o1 now st rs).hist = (process_records o2 now st rs).hist ∧
    (process_records o1 now st rs).events
      = (process_records o2 now st rs).events ∧
    (process_records o1 now st rs).notifs
      = (process_records o2 now st rs).notifs :=
  agrees_process_records o1 o2 now rs ⟨rfl, rfl, rfl⟩

/-! ### Idempotence of a processing cycle (C8) -/

/-- The history is *calm* for a record: the record's id has an entry whose
effective stored price is either unknown or already at most the record's
scraped price.  This is exactly the condition under which `process_record`
takes the `last_seen`-only branch and emits nothing. -/
def Calm (h : HistMap) (r : ProductRecord) : Prop :=
  ∀ p, r.precio = some p → ∃ e, h r.asin = some e ∧
    (effPrev e = none ∨ ∃ q, effPrev e = some q ∧ q ≤ p)

/-- Processing any record preserves calmness for any record: entries are
never removed, a `none` effective price is never filled in, and a known
effective price never increases. -/
theorem calm_preserved (o : ℕ → Bool) (now : String) (x : ProductRecord)
    {st : ProcState} {r : ProductRecord} (h : Calm st.hist r) :
    Calm (process_record o now st x).hist r := by
  intro p hp
  obtain ⟨e, he, hb⟩ := h p hp
  cases hx : x.precio with
  | none => simp only [process_record, hx]; exact ⟨e, he, hb⟩
  | some px =>
    cases hh : st.hist x.asin with
    | none =>
      by_cases hk : r.asin = x.asin
      · rw [hk] at he; rw [hh] at he; exact Option.noConfusion he
      · simp only [process_record, hx, hh]
        exact ⟨e, by simp [hupd, hk, he], hb⟩
    | some prev =>
      cases hq : effPrev prev with
      | none =>
        simp only [process_record, hx, hh, hq]
        by_cases hk : r.asin = x.asin
        · have hep : e = prev := by
            rw [hk] at he; rw [he] at hh; exact Option.some.inj hh
          refine ⟨{ prev with last_seen := now }, by simp [hupd, hk], ?_⟩
          have heq : effPrev { prev with last_seen := now } = effPrev e := by
            rw [hep]
            rfl
          rcases hb with hnone | ⟨q, hqe, hle⟩
          · exact Or.inl (heq.trans hnone)
          · exact Or.inr ⟨q, heq.trans hqe, hle⟩
        · exact ⟨e, by simp [hupd, hk, he], hb⟩
      | some qx =>
        by_cases hlt : px < qx
        · simp only [process_record, hx, hh, hq, if_pos hlt]
          by_cases hk : r.asin = x.asin
          · have hep : e = prev := by
              rw [hk] at he; rw [he] at hh; exact Option.some.inj hh
            refine ⟨{ prev with precio := some px, last_seen := now },
              by simp [hupd, hk], Or.inr ⟨px, rfl, ?_⟩⟩
            rcases hb with hnone | ⟨q, hqe, hle⟩
            · rw [hep, hq] at hnone; exact Option.noConfusion hnone
            · rw [hep, hq] at hqe
              have hqq : qx = q := Option.some.inj hqe
              exact le_of_lt (lt_of_lt_of_le hlt (hqq ▸ hle))
          · exact ⟨e, by simp [hupd, hk, he], hb⟩
        · simp only [process_record, hx, hh, hq, if_neg hlt]
          by_cases hk : r.asin = x.asin
          · have hep : e = prev := by
              rw [hk] at he; rw [he] at hh; exact Option.some.inj hh
            refine ⟨{ prev with last_seen := now }, by simp [hupd, hk], ?_⟩
            have heq : effPrev { prev with last_seen := now } = effPrev e := by
              rw [hep]
              rfl
            rcases hb with hnone | ⟨q, hqe, hle⟩
            · exact Or.inl (heq.trans hnone)
            · exact Or.inr ⟨q, heq.trans hqe, hle⟩
          · exact ⟨e, by simp [hupd, hk, he], hb⟩

/-- After a record is processed, the history is calm for that very record:
a new insertion stores the scraped price itself, a drop lowers the stored
price to the scraped price, and the remaining branches already satisfy the
calmness bound. -/
theorem calm_self (o : ℕ → Bool) (now : String) (st : ProcState)
    (r : ProductRecord) : Calm (process_record o now st r).hist r := by
  intro p hp
  cases hh : st.hist r.asin with
  | none =>
    simp only [process_record, hp, hh]
    exact ⟨⟨r.titulo, some p, none, r.link, now⟩, by simp [hupd],
      Or.inr ⟨p, rfl, le_refl p⟩⟩
  | some prev =>
    cases hq : effPrev prev with
    | none =>
      simp only [process_record, hp, hh, hq]
      exact ⟨{ prev with last_seen := now }, by simp [hupd], Or.inl hq⟩
    | some q =>
      by_cases hlt : p < q
      · simp only [process_record, hp, hh, hq, if_pos hlt]
        exact ⟨{ prev with precio := some p, last_seen := now }, by simp [hupd],
          Or.inr ⟨p, rfl, le_refl p⟩⟩
      · simp only [process_record, hp, hh, hq, if_neg hlt]
        exact ⟨{ prev with last_seen := now }, by simp [hupd],
          Or.inr ⟨q, hq, not_lt.mp hlt⟩⟩

/-- Calmness for a record is preserved along a whole record list. -/
theorem calm_preserved_records (o : ℕ → Bool) (now : String)
    (rs : List ProductRecord) {st : ProcState} {r : ProductRecord}
    (h : Calm st.hist r) : Calm (process_records o now st rs).hist r := by
  induction rs generalizing st with
  | nil => exact h
  | cons x xs ih => exact ih (calm_preserved o now x h)

/-- After one full run, the history is calm for every processed record. -/
theorem calm_after_run (o : ℕ → Bool) (now : String) (st : ProcState)
    (rs : List ProductRecord) :
    ∀ r ∈ rs, Calm (process_records o now st rs).hist r := by
  induction rs generalizing st with
  | nil => intro r hr; cases hr
  | cons x xs ih =>
    intro r hr
    rcases List.mem_cons.mp hr with hrx | hr'
    · rw [hrx]
      exact calm_preserved_records o now xs (calm_self o now st x)
    · exact ih (process_record o now st x) r hr'

/-- A record over a calm history emits no event and no notification. -/
theorem calm_no_output (o : ℕ → Bool) (now : String) {st : ProcState}
    {r : ProductRecord} (h : Calm st.hist r) :
    (process_record o now st r).events = st.events ∧
    (process_record o now st r).notifs = st.notifs := by
  cases hp : r.precio with
  | none => simp only [process_record, hp]; exact ⟨trivial, trivial⟩
  | some p =>
    obtain ⟨e, he, hb⟩ := h p hp
    rcases hb with hnone | ⟨q, hq, hle⟩
    · simp only [process_record, hp, he, hnone]; exact ⟨trivial, trivial⟩
    · simp only [process_record, hp, he, hq, if_neg (not_lt.mpr hle)]
      exact ⟨trivial, trivial⟩

/-- A whole run over a history calm for every input record appends no event
and builds no notification. -/
theorem calm_run_silent (o : ℕ → Bool) (now : String)
    (rs : List ProductRecord) (st : ProcState)
    (h : ∀ r ∈ rs, Calm st.hist r) :
    (process_records o now st rs).events = st.events ∧
    (process_records o now st rs).notifs = st.notifs := by
  induction rs generalizing st with
  | nil => exact ⟨rfl, rfl⟩
  | cons x xs ih =>
    have hx := calm_no_output o now (h x (List.mem_cons_self x xs))
    have hxs : ∀ r ∈ xs, Calm (process_record o now st x).hist r :=
      fun r hr => calm_preserved o now x (h r (List.mem_cons_of_mem x hr))
    have hrest := ih (process_record o now st x) hxs
    constructor
    · calc (process_records o now st (x :: xs)).events
          = (process_records o now (process_record o now st x) xs).events := rfl
        _ = (process_record o now st x).events := hrest.1
        _ = st.events := hx.1
    · calc (process_records o now st (x :: xs)).notifs
          = (process_records o now (process_record o now st x) xs).notifs := rfl
        _ = (process_record o now st x).notifs := hrest.2
        _ = st.notifs := hx.2

/-- **C8.**  Running the record loop twice on the same records with no
intervening change to history is idempotent: the second run — whatever its
clock reading and delivery outcomes — appends no change event and builds no
notification, i.e. every record is classified `unchanged` the second time. -/
theorem c8_second_run_silent (o1 o2 : ℕ → Bool) (now1 now2 : String)
    (h0 : HistMap) (rs : List ProductRecord) :
    (process_records o2 now2
        ⟨(process_records o1 now1 ⟨h0, [], [], [], 0⟩ rs).hist, [], [], [], 0⟩
        rs).events = [] ∧
    (process_records o2 now2
        ⟨(process_records o1 now1 ⟨h0, [], [], [], 0⟩ rs).hist, [], [], [], 0⟩
        rs).notifs = [] :=
  calm_run_silent o2 now2 rs
    ⟨(process_records o1 now1 ⟨h0, [], [], [], 0⟩ rs).hist, [], [], [], 0⟩
    (calm_after_run o1 now1 ⟨h0, [], [], [], 0⟩ rs)

/-! ### Daily digest scheduler (C9) -/

/-- The durable state seen by `send_daily_summary_if_time`: the daily ledger
file (`daily.json`, ISO date → list of change objects), the per-date
sentinel flag files (`summary_sent_<date>.flag` in the log directory), and
the digest notifications sent so far (date paired with the drained change
list the summary message is rendered from).  All three live on disk, so a
process restart resumes with the same state. -/
structure DigestState where
  daily : String → List ChangeEvent
  sentinels : String → Bool
  sent : List (String × List ChangeEvent)

/-- Clearing today's ledger list, as `get_and_clear_today_changes` does
(lines 359-366). -/
def clearDay (daily : String → List ChangeEvent) (today : String) :
    String → List ChangeEvent :=
  fun d => if d = today then [] else daily d

/-- Creating the per-date sentinel file (`open(sentinel, "w").close()`). -/
def setFlag (flags : String → Bool) (today : String) : String → Bool :=
  fun d => if d = today then true else flags d

/-- `send_daily_summary_if_time` (lines 463-486): return unless the current
hour is the configured summary hour; return if today's sentinel file exists;
otherwise drain today's ledger; if it was empty, write the sentinel and send
nothing; else send one summary notification rendered from the drained list
and write the sentinel. -/
def send_daily_summary_if_time (summaryHour hour : ℕ) (today : String)
    (st : DigestState) : DigestState :=
  if hour ≠ summaryHour then st
  else if st.sentinels today then st
  else if st.daily today = [] then
    { st with daily := clearDay st.daily today,
              sentinels := setFlag st.sentinels today }
  else
    { st with daily := clearDay st.daily today,
              sentinels := setFlag st.sentinels today,
              sent := st.sent ++ [(today, st.daily today)] }

/-- **C9.**  Once the digest check has fired at the target hour on a date,
the sentinel for that date is set, and any later check on the same date —
same hour, any other hour, or after a restart (the state is durable) — is a
complete no-op, so no second digest is ever sent for that date; and when the
drained ledger is empty the sentinel is still written while the sent log is
untouched. -/
theorem c9_digest_at_most_once (summaryHour hour hour2 : ℕ) (today : String)
    (st : DigestState) (h : hour = summaryHour) :
    (send_daily_summary_if_time summaryHour hour today st).sentinels today
      = true ∧
    send_daily_summary_if_time summaryHour hour2 today
        (send_daily_summary_if_time summaryHour hour today st)
      = send_daily_summary_if_time summaryHour hour today st ∧
    (st.daily today = [] →
      (send_daily_summary_if_time summaryHour hour today st).sent = st.sent) := by
  by_cases hs : st.sentinels today
  · have h1 : send_daily_summary_if_time summaryHour hour today st = st := by
      simp [send_daily_summary_if_time, h, hs]
    refine ⟨by rw [h1]; exact hs, ?_, by rw [h1]; intro _; rfl⟩
    rw [h1]
    by_cases h2 : hour2 = summaryHour
    · simp [send_daily_summary_if_time, h2, hs]
    · simp [send_daily_summary_if_time, h2]
  · by_cases hd : st.daily today = []
    · have h1 : send_daily_summary_if_time summaryHour hour today st
          = { st with daily := clearDay st.daily today,
                      sentinels := setFlag st.sentinels today } := by
        simp [send_daily_summary_if_time, h, hs, hd]
      have hflag : (setFlag st.sentinels today) today = true := by
        simp [setFlag]
      refine ⟨by rw [h1]; exact hflag, ?_, by rw [h1]; intro _; rfl⟩
      rw [h1]
      by_cases h2 : hour2 = summaryHour
      · simp [send_daily_summary_if_time, h2, hflag]
      · simp [send_daily_summary_if_time, h2]
    · have h1 : send_daily_summary_if_time summaryHour hour today st
          = { st with daily := clearDay st.daily today,
                      sentinels := setFlag st.sentinels today,
                      sent := st.sent ++ [(today, st.daily today)] } := by
        simp [send_daily_summary_if_time, h, hs, hd]
      have hflag : (setFlag st.sentinels today) today = true := by
        simp [setFlag]
      refine ⟨by rw [h1]; exact hflag, ?_, fun hcon => absurd hcon hd⟩
      rw [h1]
      by_cases h2 : hour2 = summaryHour
      · simp [send_daily_summary_if_time, h2, hflag]
      · simp [send_daily_summary_if_time, h2]

/-- A concrete digest state: two events pending today, no sentinel yet. -/
def digestSample : DigestState :=
  ⟨fun d => if d = "2025-12-01"
      then [⟨"new", "A1", "Widget", none, 10, "l1", "T0"⟩]
      else [],
   fun _ => false, []⟩

/-- Witness for C9 at hour 20 on a concrete date with a pending event. -/
theorem c9_digest_at_most_once_witness :
    (send_daily_summary_if_time 20 20 "2025-12-01" digestSample).sentinels
        "2025-12-01" = true ∧
    send_daily_summary_if_time 20 20 "2025-12-01"
        (send_daily_summary_if_time 20 20 "2025-12-01" digestSample)
      = send_daily_summary_if_time 20 20 "2025-12-01" digestSample ∧
    (digestSample.daily "2025-12-01" = [] →
      (send_daily_summary_if_time 20 20 "2025-12-01" digestSample).sent
        = digestSample.sent) :=
  c9_digest_at_most_once 20 20 20 "2025-12-01" digestSample rfl
